import Mathlib

/-!
Shallow embedding of `zmq-bw.py` (a telemetry beacon that samples
per-interface byte counters from `/sys/class/net` and streams deltas
over a zmq PUSH socket).

Python dicts are modelled as association lists (`dictGet`/`dictSet`),
the filesystem counter source as an environment function
`Env : String → String → Option Nat` (interface name, counter name ↦
current raw value; `none` models an unreadable counter, i.e. the
`UnavailableCounter` / `FileNotFoundError` case), and Python exceptions
as `Except` results.  Stateful methods return the updated object next
to the result; a method that raises still returns the object state at
the moment the exception escaped, because Python mutates in place.
-/

/-- The single error of the counter-reading boundary: the sysfs file for
(interface, counter) is missing or unreadable. -/
inductive CounterError where
  | unavailableCounter
deriving DecidableEq, Repr

/-- The counter source: maps (interface name, counter name) to the current
raw counter value, `none` when the counter is unavailable. -/
abbrev Env : Type := String → String → Option Nat

/-- An environment where every counter of every interface currently reads `x`. -/
def constEnv (x : Nat) : Env := fun _ _ => some x

/-- Python dict assignment `d[k] = v` on an association list: overwrite the
first binding of `k` in place, else append. -/
def dictSet {α : Type} : List (String × α) → String → α → List (String × α)
  | [], k, v => [(k, v)]
  | (k', v') :: rest, k, v =>
    if k' = k then (k, v) :: rest else (k', v') :: dictSet rest k v

/-- Python dict lookup `d.get(k)` on an association list. -/
def dictGet {α : Type} : List (String × α) → String → Option α
  | [], _ => none
  | (k', v') :: rest, k => if k' = k then some v' else dictGet rest k

/-- Python `d.get(k, 0)`. -/
def memGet (m : List (String × Nat)) (k : String) : Nat :=
  (dictGet m k).getD 0

/-- `Interface.KEYS = ['rx_bytes', 'tx_bytes']`. -/
def KEYS : List String := ["rx_bytes", "tx_bytes"]

/-- One `Interface` object: the interface name and the `self.mem` dict of
previously seen raw values per counter name. -/
structure Interface where
  iface : String
  mem : List (String × Nat)
deriving DecidableEq, Repr

/-- `Interface._poll(value)`: read the raw counter from
`/sys/class/net/<iface>/statistics/<value>`, modelled by the environment. -/
def Interface.rawRead (s : Interface) (env : Env) (key : String) : Option Nat :=
  env s.iface key

/-- `Interface._delta(key)`: read raw value `x`, report
`x - self.mem.get(key, 0)`, store `x` in `self.mem[key]`.  If the read
raises, `self.mem` is untouched and the exception escapes. -/
def Interface.deltaStep (s : Interface) (env : Env) (key : String) :
    Except CounterError Int × Interface :=
  match s.rawRead env key with
  | none => (.error .unavailableCounter, s)
  | some x =>
    ((.ok ((x : Int) - (memGet s.mem key : Int))),
      { s with mem := dictSet s.mem key x })

/-- The dict comprehension `{k: self._delta(k) for k in keys}`: keys are
processed left to right; on the first raised exception the partial dict
is discarded but the mutations already made to `self.mem` survive. -/
def Interface.pollKeys (env : Env) :
    Interface → List String → Except CounterError (List (String × Int)) × Interface
  | s, [] => (.ok [], s)
  | s, k :: ks =>
    match s.deltaStep env k with
    | (.error e, s') => (.error e, s')
    | (.ok d, s') =>
      match Interface.pollKeys env s' ks with
      | (.error e, s'') => (.error e, s'')
      | (.ok rest, s'') => (.ok ((k, d) :: rest), s'')

/-- `Interface.poll()`: `{k: self._delta(k) for k in self.KEYS}`. -/
def Interface.poll (s : Interface) (env : Env) :
    Except CounterError (List (String × Int)) × Interface :=
  Interface.pollKeys env s KEYS

/-- `Interface.__init__(iface)`: start with empty `mem`, then call
`self.poll()` discarding its result (its exception still escapes). -/
def Interface.init (name : String) (env : Env) :
    Except CounterError Unit × Interface :=
  match Interface.poll ⟨name, []⟩ env with
  | (.error e, s') => (.error e, s')
  | (.ok _, s') => (.ok (), s')

/-- A snapshot: the dict produced by `SpeedDB.pack`, interface name ↦
counter name ↦ delta. -/
abbrev Snapshot : Type := List (String × List (String × Int))

/-- The `SpeedDB` object: the list of `Interface` objects, one per entry of
the configured interface list. -/
structure SpeedDB where
  ifaces : List Interface
deriving DecidableEq, Repr

/-- The list comprehension `[Interface(iface) for iface in ifaces]` in
`SpeedDB.__init__`: each constructor polls once; a raised exception aborts
the whole construction. -/
def SpeedDB.initList (env : Env) : List String → Except CounterError (List Interface)
  | [] => .ok []
  | n :: ns =>
    match Interface.init n env with
    | (.error e, _) => .error e
    | (.ok _, s) =>
      match SpeedDB.initList env ns with
      | .error e => .error e
      | .ok rest => .ok (s :: rest)

/-- `SpeedDB.__init__(ifaces)`. -/
def SpeedDB.init (names : List String) (env : Env) : Except CounterError SpeedDB :=
  (SpeedDB.initList env names).map SpeedDB.mk

/-- The dict comprehension `{x.iface: x.poll() for x in self.ifaces}` in
`SpeedDB.pack`: interfaces are polled left to right into an accumulator
dict (a duplicated `x.iface` key overwrites the earlier entry); on the
first raised exception the partial dict is discarded, but the `mem`
mutations of the interfaces polled so far survive. -/
def SpeedDB.packAux (env : Env) :
    List (String × List (String × Int)) → List Interface →
      Except CounterError Snapshot × List Interface
  | acc, [] => (.ok acc, [])
  | acc, i :: is =>
    match i.poll env with
    | (.error e, i') => (.error e, i' :: is)
    | (.ok res, i') =>
      match SpeedDB.packAux env (dictSet acc i.iface res) is with
      | (r, is') => (r, i' :: is')

/-- `SpeedDB.pack()`: run the comprehension starting from the empty dict;
the error or snapshot comes back with the (possibly partially) updated
interface objects. -/
def SpeedDB.pack (db : SpeedDB) (env : Env) : Except CounterError Snapshot × SpeedDB :=
  ((SpeedDB.packAux env [] db.ifaces).1, ⟨(SpeedDB.packAux env [] db.ifaces).2⟩)

/-! ### The Queue (zmq PUSH channel wrapper)

Observable actions of a `Queue` are recorded as an effect trace:
creating the PUSH socket, applying the curve certificates, connecting to
the destination, printing a line to stdout, and handing a serialized
message to the socket's send buffer. -/

/-- One observable action of the `Queue` object. -/
inductive Effect where
  | socketCreate
  | curveApply
  | netConnect (dest : String)
  | printLine (line : String)
  | netSendJson (payload : String)
deriving DecidableEq, Repr

/-- Whether an effect touches the network transport (socket creation,
connection, or enqueueing an outbound message); printing to stdout and
setting local curve options do not. -/
def Effect.isNetwork : Effect → Bool
  | .socketCreate => true
  | .netConnect _ => true
  | .netSendJson _ => true
  | .printLine _ => false
  | .curveApply => false

/-- `json.dumps` on a string (the names used here need no escaping). -/
def jsonStr (s : String) : String := "\"" ++ s ++ "\""

/-- `json.dumps` body of a dict, default separators. -/
def dumpPairs {α : Type} (f : α → String) : List (String × α) → String
  | [] => ""
  | [(k, v)] => jsonStr k ++ ": " ++ f v
  | (k, v) :: rest => jsonStr k ++ ": " ++ f v ++ ", " ++ dumpPairs f rest

/-- `json.dumps` of a dict, default separators. -/
def dumpObj {α : Type} (f : α → String) (d : List (String × α)) : String :=
  "\x7b" ++ dumpPairs f d ++ "\x7d"

/-- `json.dumps` of one interface's counter-delta dict. -/
def dumpCounters (m : List (String × Int)) : String :=
  dumpObj (fun d : Int => toString d) m

/-- `json.dumps` of the `data` field (the snapshot). -/
def dumpSnapshot (m : Snapshot) : String := dumpObj dumpCounters m

/-- `json.dumps` of the whole envelope
`{'origin': node, 'when': now, 'data': snap}`. -/
def dumpEnvelope (origin : String) (now : Nat) (snap : Snapshot) : String :=
  "\x7b" ++ jsonStr "origin" ++ ": " ++ jsonStr origin ++ ", " ++
    jsonStr "when" ++ ": " ++ toString now ++ ", " ++
    jsonStr "data" ++ ": " ++ dumpSnapshot snap ++ "\x7d"

/-- The `Queue` object: beacon identity and the dry flag (the zmq context
and socket live only in the effect trace). -/
structure Queue where
  node : String
  dry : Bool
deriving DecidableEq, Repr

/-- `Queue.__init__(dest, node, crypto, dry)`: unconditionally creates a
PUSH socket, applies curve keys when crypto is given, and connects to the
destination — the dry flag does not suppress the connect. -/
def Queue.init (dest node : String) (hasCrypto dry : Bool) : Queue × List Effect :=
  (⟨node, dry⟩,
    [Effect.socketCreate] ++ (if hasCrypto then [Effect.curveApply] else []) ++
      [Effect.netConnect dest])

/-- `Queue.send(speed)`: build the envelope dict (calling `speed.pack()`,
whose exception escapes before any output happens), then either print the
JSON line (dry) or hand the JSON message to the socket (non-dry). -/
def Queue.send (q : Queue) (db : SpeedDB) (now : Nat) (env : Env) :
    Except CounterError (List Effect) × SpeedDB :=
  let packed := SpeedDB.pack db env
  match packed.1 with
  | .error e => (.error e, packed.2)
  | .ok snap =>
    let payload := dumpEnvelope q.node now snap
    ((if q.dry then .ok [Effect.printLine payload]
      else .ok [Effect.netSendJson payload]), packed.2)

/-! ### Single-counter reading sequences

`deltaSeq` feeds a list of raw readings, one per poll, into one counter of
one tracker and collects the reported deltas: reading `i` is what the
counter file holds at the time of poll `i`. -/

/-- The deltas a tracker reports for one counter across a sequence of raw
readings (each poll sees the corresponding reading). -/
def deltaSeq (key : String) : Interface → List Nat → List Int
  | _, [] => []
  | s, x :: xs =>
    match s.deltaStep (constEnv x) key with
    | (.ok d, s') => d :: deltaSeq key s' xs
    | (.error _, _) => []

/-- Consecutive differences of a reading sequence against a starting
baseline `p`: `diffsFrom p [x0, x1, ...] = [x0 - p, x1 - x0, ...]`. -/
def diffsFrom (p : Nat) : List Nat → List Int
  | [] => []
  | x :: xs => ((x : Int) - (p : Int)) :: diffsFrom x xs

/-- The last element of a list satisfying a predicate (Python's
"last assignment wins" for duplicate dict keys). -/
def lastWith {α : Type} (p : α → Bool) : List α → Option α
  | [] => none
  | a :: as =>
    match lastWith p as with
    | some b => some b
    | none => if p a then some a else none

/-- Every delta in a snapshot is zero. -/
def allZero (m : Snapshot) : Prop := ∀ p ∈ m, ∀ q ∈ p.2, q.2 = 0

/-- The snapshot attempt succeeded and every delta in it is zero. -/
def allZeroResult : Except CounterError Snapshot → Prop
  | .ok m => allZero m
  | .error _ => False

/-- What `SpeedDB.packAux` starting from accumulator `acc` returns at key
`nm`: the poll value of the last listed tracker named `nm`, else whatever
`acc` had. -/
def packGetSpec (env : Env) (is : List Interface) (acc : Snapshot) (nm : String) :
    Option (List (String × Int)) :=
  match lastWith (fun i => i.iface == nm) is with
  | some i => ((Interface.poll i env).1).toOption
  | none => dictGet acc nm

/-! ### Association-list (dict) lemmas -/

theorem dictGet_dictSet_self {α : Type} (d : List (String × α)) (k : String) (v : α) :
    dictGet (dictSet d k v) k = some v := by
  induction d with
  | nil => simp [dictSet, dictGet]
  | cons p rest ih =>
    obtain ⟨k', v'⟩ := p
    by_cases h : k' = k
    · simp [dictSet, dictGet, h]
    · simp [dictSet, dictGet, h, ih]

theorem dictGet_dictSet_ne {α : Type} (d : List (String × α)) {k k' : String} (v : α)
    (h : k' ≠ k) : dictGet (dictSet d k v) k' = dictGet d k' := by
  induction d with
  | nil => simp [dictSet, dictGet, Ne.symm h]
  | cons p rest ih =>
    obtain ⟨k0, v0⟩ := p
    by_cases h0 : k0 = k
    · subst h0
      simp [dictSet, dictGet, h, Ne.symm h]
    · simp only [dictSet, if_neg h0]
      by_cases h1 : k0 = k'
      · simp [dictGet, h1]
      · simp [dictGet, h1, ih]

theorem memGet_dictSet_self (m : List (String × Nat)) (k : String) (v : Nat) :
    memGet (dictSet m k v) k = v := by
  simp [memGet, dictGet_dictSet_self]

theorem memGet_dictSet_ne (m : List (String × Nat)) {k k' : String} (v : Nat)
    (h : k' ≠ k) : memGet (dictSet m k v) k' = memGet m k' := by
  simp [memGet, dictGet_dictSet_ne m v h]

theorem mem_keys_dictSet {α : Type} (d : List (String × α)) (k k' : String) (v : α) :
    k' ∈ (dictSet d k v).map Prod.fst ↔ k' ∈ d.map Prod.fst ∨ k' = k := by
  induction d with
  | nil => simp [dictSet]
  | cons p rest ih =>
    obtain ⟨k0, v0⟩ := p
    by_cases h0 : k0 = k
    · subst h0
      simp [dictSet]
      tauto
    · simp [dictSet, h0, ih]
      tauto

theorem nodup_keys_dictSet {α : Type} (d : List (String × α)) (k : String) (v : α)
    (h : (d.map Prod.fst).Nodup) : ((dictSet d k v).map Prod.fst).Nodup := by
  induction d with
  | nil => simp [dictSet]
  | cons p rest ih =>
    obtain ⟨k0, v0⟩ := p
    simp only [List.map_cons, List.nodup_cons] at h
    by_cases h0 : k0 = k
    · subst h0
      simpa [dictSet] using h
    · simp only [dictSet, if_neg h0, List.map_cons, List.nodup_cons]
      refine ⟨fun hm => ?_, ih h.2⟩
      rcases (mem_keys_dictSet rest k k0 v).mp hm with hin | rfl
      · exact h.1 hin
      · exact h0 rfl

/-! ### Characterizing one poll -/

theorem deltaStep_iface (s : Interface) (env : Env) (key : String) :
    (s.deltaStep env key).2.iface = s.iface := by
  unfold Interface.deltaStep
  cases s.rawRead env key <;> rfl

theorem deltaSeq_eq (key name : String) (xs : List Nat) :
    ∀ mem, deltaSeq key ⟨name, mem⟩ xs = diffsFrom (memGet mem key) xs := by
  induction xs with
  | nil => intro mem; rfl
  | cons x xs ih =>
    intro mem
    show ((x : Int) - (memGet mem key : Int)) :: deltaSeq key ⟨name, dictSet mem key x⟩ xs = _
    rw [ih, memGet_dictSet_self, diffsFrom]

theorem poll_rx_unavailable (s : Interface) (env : Env)
    (h : env s.iface "rx_bytes" = none) :
    Interface.poll s env = (.error .unavailableCounter, s) := by
  simp [Interface.poll, KEYS, Interface.pollKeys, Interface.deltaStep, Interface.rawRead, h]

theorem poll_tx_unavailable (s : Interface) (env : Env) (a : Nat)
    (h1 : env s.iface "rx_bytes" = some a) (h2 : env s.iface "tx_bytes" = none) :
    Interface.poll s env =
      (.error .unavailableCounter, ⟨s.iface, dictSet s.mem "rx_bytes" a⟩) := by
  simp [Interface.poll, KEYS, Interface.pollKeys, Interface.deltaStep, Interface.rawRead, h1, h2]

theorem poll_ok (s : Interface) (env : Env) (a b : Nat)
    (h1 : env s.iface "rx_bytes" = some a) (h2 : env s.iface "tx_bytes" = some b) :
    Interface.poll s env =
      (.ok [("rx_bytes", (a : Int) - (memGet s.mem "rx_bytes" : Int)),
            ("tx_bytes", (b : Int) - (memGet (dictSet s.mem "rx_bytes" a) "tx_bytes" : Int))],
       ⟨s.iface, dictSet (dictSet s.mem "rx_bytes" a) "tx_bytes" b⟩) := by
  simp [Interface.poll, KEYS, Interface.pollKeys, Interface.deltaStep, Interface.rawRead, h1, h2]

/-- Sanity check of the embedding: a raw value below the stored baseline
yields a negative delta (1200 against baseline 1500 gives -300). -/
theorem scenario_decrease_delta :
    (Interface.deltaStep ⟨"eth0", [("rx_bytes", 1500)]⟩ (constEnv 1200) "rx_bytes").1 =
      .ok (-300) := by rfl

/-- Sanity check of the embedding: constructing a tracker while the
counters read 1000 stores 1000 as the baseline of both counters. -/
theorem scenario_init_baseline :
    (Interface.init "eth0" (constEnv 1000)).2.mem =
      [("rx_bytes", 1000), ("tx_bytes", 1000)] := by rfl

/-- Sanity check of the embedding: a snapshot subtracts the stored
baselines from the current readings. -/
theorem scenario_pack :
    (SpeedDB.pack ⟨[⟨"eth0", [("rx_bytes", 3), ("tx_bytes", 4)]⟩]⟩ (constEnv 10)).1 =
      .ok [("eth0", [("rx_bytes", 7), ("tx_bytes", 6)])] := by rfl

/-- Sanity check of the embedding: a dry-mode send prints the JSON
envelope line. -/
theorem scenario_dry_line :
    (Queue.send ⟨"n1", true⟩ ⟨[⟨"eth0", [("rx_bytes", 3), ("tx_bytes", 4)]⟩]⟩ 99
        (constEnv 10)).1 =
      .ok [Effect.printLine
        "\x7b\"origin\": \"n1\", \"when\": 99, \"data\": \x7b\"eth0\": \x7b\"rx_bytes\": 7, \"tx_bytes\": 6\x7d\x7d\x7d"] := by
  rfl

/-! ### Helper facts for the sequence claims -/

theorem diffsFrom_nonneg :
    ∀ (xs : List Nat) (p : Nat), List.Chain' (· ≤ ·) (p :: xs) →
      ∀ d ∈ diffsFrom p xs, 0 ≤ d := by
  intro xs
  induction xs with
  | nil => intro p _ d hd; simp [diffsFrom] at hd
  | cons x xs ih =>
    intro p hc d hd
    rw [List.chain'_cons] at hc
    simp only [diffsFrom, List.mem_cons] at hd
    rcases hd with rfl | hd
    · have := hc.1
      omega
    · exact ih x hc.2 d hd

theorem interface_init_constEnv (name : String) (x0 : Nat) :
    Interface.init name (constEnv x0) =
      (.ok (), ⟨name, [("rx_bytes", x0), ("tx_bytes", x0)]⟩) := rfl

/-! ### Claim C1 — reset/wraparound policy -/

/-- C1, counterexample: with stored baseline 1000 for `rx_bytes` and a
current raw value of 500 (a decrease), the code reports delta -500, not
500 as the claimed reset policy would require. -/
theorem c1_counterexample :
    500 < memGet [("rx_bytes", 1000)] "rx_bytes" ∧
    (Interface.deltaStep ⟨"eth0", [("rx_bytes", 1000)]⟩ (constEnv 500) "rx_bytes").1 =
      .ok (-500) ∧
    (-500 : Int) ≠ 500 := by
  refine ⟨by decide, rfl, by decide⟩

/-- C1 (amended): when the current raw value `x` is strictly below the
stored value, the reported delta is `x - previous`, which is strictly
negative (not `x`); the stored baseline is still updated to `x`, so the
next delta resumes normal subtraction from `x`. -/
theorem c1_reset_behavior (name key : String) (mem : List (String × Nat)) (x y : Nat)
    (hlt : x < memGet mem key) :
    deltaSeq key ⟨name, mem⟩ [x, y] =
      [(x : Int) - (memGet mem key : Int), (y : Int) - (x : Int)] ∧
    (x : Int) - (memGet mem key : Int) < 0 := by
  constructor
  · rw [deltaSeq_eq]; rfl
  · omega

/-- C1 witness: instantiates `c1_reset_behavior` at baseline 1000 and
readings 500 then 800. -/
theorem c1_reset_witness :
    500 < memGet [("rx_bytes", 1000)] "rx_bytes" ∧
    (deltaSeq "rx_bytes" ⟨"eth0", [("rx_bytes", 1000)]⟩ [500, 800] =
      [(500 : Int) - (memGet [("rx_bytes", 1000)] "rx_bytes" : Int),
       (800 : Int) - (500 : Int)] ∧
     (500 : Int) - (memGet [("rx_bytes", 1000)] "rx_bytes" : Int) < 0) :=
  ⟨by decide, c1_reset_behavior "eth0" "rx_bytes" [("rx_bytes", 1000)] 500 800 (by decide)⟩

/-! ### Claim C2 — nonnegative deltas -/

/-- C2, counterexample: for the reading sequence [1000, 500] a fresh
tracker reports deltas [1000, -500]; the second reported delta is
negative, refuting "deltas are always ≥ 0 for any input sequence". -/
theorem c2_counterexample :
    deltaSeq "rx_bytes" ⟨"eth0", []⟩ [1000, 500] = [1000, -500] ∧
    (-500 : Int) < 0 :=
  ⟨rfl, by decide⟩

/-- C2 (amended): for a fresh tracker and a non-decreasing sequence of raw
readings, every reported delta is ≥ 0. -/
theorem c2_nonneg_when_monotone (name key : String) (xs : List Nat) (d : Int)
    (hmono : List.Chain' (· ≤ ·) xs)
    (hd : d ∈ deltaSeq key ⟨name, []⟩ xs) : 0 ≤ d := by
  rw [deltaSeq_eq] at hd
  have h0 : memGet [] key = 0 := rfl
  rw [h0] at hd
  refine diffsFrom_nonneg xs 0 ?_ d hd
  rw [List.chain'_cons']
  exact ⟨fun b _ => Nat.zero_le b, hmono⟩

/-- C2 witness: instantiates `c2_nonneg_when_monotone` on the
non-decreasing readings [3, 5, 5], whose deltas are [3, 2, 0]. -/
theorem c2_nonneg_witness :
    List.Chain' (· ≤ ·) [3, 5, 5] ∧
    (2 : Int) ∈ deltaSeq "rx_bytes" ⟨"eth0", []⟩ [3, 5, 5] ∧
    0 ≤ (2 : Int) :=
  ⟨by norm_num [List.chain'_cons], by decide,
    c2_nonneg_when_monotone "eth0" "rx_bytes" [3, 5, 5] 2 (by norm_num [List.chain'_cons])
      (by decide)⟩

/-! ### Claim C3 — baseline and consecutive differences -/

/-- C3, counterexample: with strictly increasing readings [5, 7], a
tracker constructed at raw value 5 reports 2 as its first delta, not 0;
even the constructor's own discarded first delta is 5, not 0. -/
theorem c3_counterexample :
    List.Chain' (· ≤ ·) [5, 7] ∧
    deltaSeq "rx_bytes" ⟨"eth0", []⟩ [5, 7] = [5, 2] ∧
    (Interface.init "eth0" (constEnv 5)).1 = .ok () ∧
    deltaSeq "rx_bytes" (Interface.init "eth0" (constEnv 5)).2 [7] = [2] ∧
    (2 : Int) ≠ 0 := by
  refine ⟨by norm_num [List.chain'_cons], rfl, rfl, rfl, by decide⟩

/-- C3 (amended): the constructor performs a first poll whose delta is
discarded and which sets the baseline to the construction-time reading
`x0`; every delta reported afterwards equals the consecutive difference
`x(i) - x(i-1)` of the readings (the first reported one being `x1 - x0`,
not necessarily 0). -/
theorem c3_consecutive_diffs (name key : String) (x0 : Nat) (xs : List Nat)
    (hkey : key ∈ KEYS)
    (_hmono : List.Chain' (· ≤ ·) (x0 :: xs)) :
    (Interface.init name (constEnv x0)).1 = .ok () ∧
    deltaSeq key (Interface.init name (constEnv x0)).2 xs = diffsFrom x0 xs := by
  rw [interface_init_constEnv]
  refine ⟨rfl, ?_⟩
  show deltaSeq key ⟨name, [("rx_bytes", x0), ("tx_bytes", x0)]⟩ xs = diffsFrom x0 xs
  rw [deltaSeq_eq]
  have hk : memGet [("rx_bytes", x0), ("tx_bytes", x0)] key = x0 := by
    simp only [KEYS, List.mem_cons, List.mem_singleton, List.not_mem_nil, or_false] at hkey
    rcases hkey with rfl | rfl <;> rfl
  rw [hk]

/-- C3 witness: instantiates `c3_consecutive_diffs` on construction
reading 1000 and subsequent readings [1500, 1600]. -/
theorem c3_consecutive_witness :
    "rx_bytes" ∈ KEYS ∧
    List.Chain' (· ≤ ·) [1000, 1500, 1600] ∧
    ((Interface.init "eth0" (constEnv 1000)).1 = .ok () ∧
     deltaSeq "rx_bytes" (Interface.init "eth0" (constEnv 1000)).2 [1500, 1600] =
       diffsFrom 1000 [1500, 1600]) :=
  ⟨by decide, by norm_num [List.chain'_cons],
    c3_consecutive_diffs "eth0" "rx_bytes" 1000 [1500, 1600] (by decide)
      (by norm_num [List.chain'_cons])⟩

/-! ### Helper facts about `SpeedDB.packAux` -/

theorem packAux_cons_err (env : Env) (acc : Snapshot) (j : Interface)
    (is : List Interface) (e : CounterError) (j' : Interface)
    (h : Interface.poll j env = (.error e, j')) :
    SpeedDB.packAux env acc (j :: is) = (.error e, j' :: is) := by
  simp only [SpeedDB.packAux, h]

theorem packAux_cons_ok (env : Env) (acc : Snapshot) (j : Interface)
    (is : List Interface) (res : List (String × Int)) (j' : Interface)
    (r1 : Except CounterError Snapshot) (is2 : List Interface)
    (h : Interface.poll j env = (.ok res, j'))
    (hrec : SpeedDB.packAux env (dictSet acc j.iface res) is = (r1, is2)) :
    SpeedDB.packAux env acc (j :: is) = (r1, j' :: is2) := by
  simp only [SpeedDB.packAux, h, hrec]

theorem poll_error_unavailable (s : Interface) (env : Env) (e : CounterError)
    (h : (Interface.poll s env).1 = .error e) :
    env s.iface "rx_bytes" = none ∨ env s.iface "tx_bytes" = none := by
  rcases hrx : env s.iface "rx_bytes" with _ | a
  · exact Or.inl rfl
  rcases htx : env s.iface "tx_bytes" with _ | b
  · exact Or.inr rfl
  rw [poll_ok s env a b hrx htx] at h
  simp at h

theorem packAux_error_of_mem (env : Env) :
    ∀ (is : List Interface) (acc : Snapshot) (i : Interface), i ∈ is →
      (env i.iface "rx_bytes" = none ∨ env i.iface "tx_bytes" = none) →
      (SpeedDB.packAux env acc is).1 = .error CounterError.unavailableCounter := by
  intro is
  induction is with
  | nil => intro acc i hmem _; exact absurd hmem (List.not_mem_nil i)
  | cons j is ih =>
    intro acc i hmem hun
    rcases List.mem_cons.mp hmem with rfl | htail
    · rcases hun with h | h
      · rw [packAux_cons_err env acc i is _ _ (poll_rx_unavailable i env h)]
      · rcases hrx : env i.iface "rx_bytes" with _ | a
        · rw [packAux_cons_err env acc i is _ _ (poll_rx_unavailable i env hrx)]
        · rw [packAux_cons_err env acc i is _ _ (poll_tx_unavailable i env a hrx h)]
    · rcases hpoll : Interface.poll j env with ⟨r, j'⟩
      cases r with
      | error e =>
        cases e
        rw [packAux_cons_err env acc j is _ j' hpoll]
      | ok res =>
        rcases hrec : SpeedDB.packAux env (dictSet acc j.iface res) is with ⟨r1, is2⟩
        rw [packAux_cons_ok env acc j is res j' r1 is2 hpoll hrec]
        have hr := ih (dictSet acc j.iface res) i htail hun
        rw [hrec] at hr
        exact hr

/-! ### Claim C5 — all-or-nothing snapshot -/

/-- C5: if the poll of any one owned tracker fails with
UnavailableCounter, the whole `pack` (snapshot) call returns that error:
no partial snapshot with the other interfaces' deltas is produced. -/
theorem c5_snapshot_all_or_nothing (db : SpeedDB) (env : Env) (i : Interface)
    (e : CounterError)
    (hi : i ∈ db.ifaces)
    (hfail : (Interface.poll i env).1 = .error e) :
    (SpeedDB.pack db env).1 = .error CounterError.unavailableCounter :=
  packAux_error_of_mem env db.ifaces [] i hi (poll_error_unavailable i env e hfail)

/-- C5 witness: a single-interface database whose counters are all
unavailable. -/
theorem c5_snapshot_witness :
    (⟨"eth0", []⟩ : Interface) ∈ (SpeedDB.mk [⟨"eth0", []⟩]).ifaces ∧
    (Interface.poll ⟨"eth0", []⟩ (fun _ _ => none)).1 =
      .error CounterError.unavailableCounter ∧
    (SpeedDB.pack (SpeedDB.mk [⟨"eth0", []⟩]) (fun _ _ => none)).1 =
      .error CounterError.unavailableCounter :=
  ⟨by decide, rfl,
    c5_snapshot_all_or_nothing (SpeedDB.mk [⟨"eth0", []⟩]) (fun _ _ => none)
      ⟨"eth0", []⟩ CounterError.unavailableCounter (by decide) rfl⟩

/-! ### Claim C6 — failed read leaves memory untouched -/

/-- C6: when the raw read of a counterName is unavailable, `_delta`
propagates UnavailableCounter and returns with `self.mem` unchanged, so
the failed counter keeps its last known baseline. -/
theorem c6_error_keeps_memory (s : Interface) (env : Env) (key : String)
    (h : env s.iface key = none) :
    Interface.deltaStep s env key = (.error CounterError.unavailableCounter, s) := by
  unfold Interface.deltaStep Interface.rawRead
  rw [h]

/-- C6 witness: a tracker with baseline 42 keeps it across a failed read. -/
theorem c6_error_witness :
    (fun _ _ => (none : Option Nat)) "eth0" "rx_bytes" = none ∧
    Interface.deltaStep ⟨"eth0", [("rx_bytes", 42)]⟩ (fun _ _ => none) "rx_bytes" =
      (.error CounterError.unavailableCounter, ⟨"eth0", [("rx_bytes", 42)]⟩) :=
  ⟨rfl, c6_error_keeps_memory ⟨"eth0", [("rx_bytes", 42)]⟩ (fun _ _ => none) "rx_bytes" rfl⟩

/-! ### Claim C9 — a poll is not atomic across the two counters -/

/-- C9: when rx_bytes reads `x` successfully but tx_bytes is unavailable,
the poll raises UnavailableCounter, yet the stored rx_bytes baseline has
already been advanced to `x` — the rx delta of that interval is lost. -/
theorem c9_poll_not_atomic (s : Interface) (env : Env) (x : Nat)
    (hrx : env s.iface "rx_bytes" = some x)
    (htx : env s.iface "tx_bytes" = none) :
    (Interface.poll s env).1 = .error CounterError.unavailableCounter ∧
    memGet (Interface.poll s env).2.mem "rx_bytes" = x := by
  rw [poll_tx_unavailable s env x hrx htx]
  exact ⟨rfl, memGet_dictSet_self s.mem "rx_bytes" x⟩

/-- C9 witness: rx_bytes reads 150 while tx_bytes is unreadable; the poll
errors but the rx baseline has moved from 100 to 150. -/
theorem c9_poll_witness :
    (fun _ k => if k = "tx_bytes" then (none : Option Nat) else some 150)
        "eth0" "rx_bytes" = some 150 ∧
    (fun _ k => if k = "tx_bytes" then (none : Option Nat) else some 150)
        "eth0" "tx_bytes" = none ∧
    ((Interface.poll ⟨"eth0", [("rx_bytes", 100)]⟩
        (fun _ k => if k = "tx_bytes" then (none : Option Nat) else some 150)).1 =
      .error CounterError.unavailableCounter ∧
     memGet (Interface.poll ⟨"eth0", [("rx_bytes", 100)]⟩
        (fun _ k => if k = "tx_bytes" then (none : Option Nat) else some 150)).2.mem
        "rx_bytes" = 150) :=
  ⟨by decide, by decide,
    c9_poll_not_atomic ⟨"eth0", [("rx_bytes", 100)]⟩
      (fun _ k => if k = "tx_bytes" then (none : Option Nat) else some 150) 150
      (by decide) (by decide)⟩

/-! ### Claim C4 — dry-mode send is local-only -/

/-- C4: in dry mode, `send` produces exactly one printed line — the JSON
serialization of the envelope on the local output stream — and the effect
trace contains no network effect at all. -/
theorem c4_dry_send (q : Queue) (db : SpeedDB) (now : Nat) (env : Env)
    (snap : Snapshot)
    (hdry : q.dry = true)
    (hpack : (SpeedDB.pack db env).1 = .ok snap) :
    (Queue.send q db now env).1 =
      .ok [Effect.printLine (dumpEnvelope q.node now snap)] ∧
    List.filter Effect.isNetwork
      [Effect.printLine (dumpEnvelope q.node now snap)] = [] := by
  constructor
  · simp [Queue.send, hpack, hdry]
  · simp [Effect.isNetwork]

/-- C4 witness: a dry-mode queue sending a concrete one-interface
snapshot prints its JSON line and nothing else. -/
theorem c4_dry_witness :
    (Queue.mk "n1" true).dry = true ∧
    (SpeedDB.pack (SpeedDB.mk [⟨"eth0", [("rx_bytes", 3), ("tx_bytes", 4)]⟩])
        (constEnv 10)).1 = .ok [("eth0", [("rx_bytes", 7), ("tx_bytes", 6)])] ∧
    ((Queue.send (Queue.mk "n1" true)
        (SpeedDB.mk [⟨"eth0", [("rx_bytes", 3), ("tx_bytes", 4)]⟩]) 99 (constEnv 10)).1 =
      .ok [Effect.printLine (dumpEnvelope "n1" 99
        [("eth0", [("rx_bytes", 7), ("tx_bytes", 6)])])] ∧
     List.filter Effect.isNetwork
       [Effect.printLine (dumpEnvelope "n1" 99
         [("eth0", [("rx_bytes", 7), ("tx_bytes", 6)])])] = []) :=
  ⟨rfl, rfl,
    c4_dry_send (Queue.mk "n1" true)
      (SpeedDB.mk [⟨"eth0", [("rx_bytes", 3), ("tx_bytes", 4)]⟩]) 99 (constEnv 10)
      [("eth0", [("rx_bytes", 7), ("tx_bytes", 6)])] rfl rfl⟩

/-! ### Claim C7 — repeated snapshot under unchanged counters -/

theorem poll_twice_zero (s : Interface) (env : Env) (res : List (String × Int))
    (s' : Interface) (h : Interface.poll s env = (.ok res, s')) :
    (Interface.poll s' env).1 = .ok [("rx_bytes", 0), ("tx_bytes", 0)] := by
  rcases hrx : env s.iface "rx_bytes" with _ | a
  · rw [poll_rx_unavailable s env hrx] at h
    simp at h
  rcases htx : env s.iface "tx_bytes" with _ | b
  · rw [poll_tx_unavailable s env a hrx htx] at h
    simp at h
  rw [poll_ok s env a b hrx htx, Prod.mk.injEq] at h
  obtain ⟨-, h2⟩ := h
  subst h2
  have e1 : memGet (dictSet (dictSet s.mem "rx_bytes" a) "tx_bytes" b) "rx_bytes" = a := by
    rw [memGet_dictSet_ne _ b (by decide : ("rx_bytes" : String) ≠ "tx_bytes"),
      memGet_dictSet_self]
  have e2 : memGet (dictSet (dictSet (dictSet s.mem "rx_bytes" a) "tx_bytes" b)
      "rx_bytes" a) "tx_bytes" = b := by
    rw [memGet_dictSet_ne _ a (by decide : ("tx_bytes" : String) ≠ "rx_bytes"),
      memGet_dictSet_self]
  have hrx2 : env (Interface.mk s.iface
      (dictSet (dictSet s.mem "rx_bytes" a) "tx_bytes" b)).iface "rx_bytes" = some a := hrx
  have htx2 : env (Interface.mk s.iface
      (dictSet (dictSet s.mem "rx_bytes" a) "tx_bytes" b)).iface "tx_bytes" = some b := htx
  rw [poll_ok _ env a b hrx2 htx2]
  simp [e1, e2]

theorem allZero_dictSet (acc : Snapshot) (k : String) (v : List (String × Int))
    (hacc : allZero acc) (hv : ∀ q ∈ v, q.2 = 0) : allZero (dictSet acc k v) := by
  induction acc with
  | nil =>
    intro p hp q hq
    simp only [dictSet, List.mem_singleton] at hp
    subst hp
    exact hv q hq
  | cons p0 rest ih =>
    obtain ⟨k0, v0⟩ := p0
    have hrest : allZero rest := fun p hp q hq => hacc p (List.mem_cons_of_mem _ hp) q hq
    by_cases h0 : k0 = k
    · intro p hp q hq
      simp only [dictSet, if_pos h0, List.mem_cons] at hp
      rcases hp with rfl | hp
      · exact hv q hq
      · exact hrest p hp q hq
    · intro p hp q hq
      simp only [dictSet, if_neg h0, List.mem_cons] at hp
      rcases hp with rfl | hp
      · exact hacc (k0, v0) (List.mem_cons_self _ _) q hq
      · exact ih hrest p hp q hq

theorem packAux_twice (env : Env) :
    ∀ (is : List Interface) (acc acc2 m : Snapshot) (is' : List Interface),
      SpeedDB.packAux env acc is = (.ok m, is') →
      allZero acc2 →
      allZeroResult (SpeedDB.packAux env acc2 is').1 := by
  intro is
  induction is with
  | nil =>
    intro acc acc2 m is' h hz
    simp only [SpeedDB.packAux, Prod.mk.injEq] at h
    obtain ⟨-, h2⟩ := h
    subst h2
    exact hz
  | cons j is ih =>
    intro acc acc2 m is' h hz
    rcases hpoll : Interface.poll j env with ⟨r, j'⟩
    cases r with
    | error e =>
      rw [packAux_cons_err env acc j is e j' hpoll] at h
      simp at h
    | ok res =>
      rcases hrec : SpeedDB.packAux env (dictSet acc j.iface res) is with ⟨r1, is2⟩
      rw [packAux_cons_ok env acc j is res j' r1 is2 hpoll hrec, Prod.mk.injEq] at h
      obtain ⟨h1, h2⟩ := h
      subst h1
      subst h2
      have hz2 := poll_twice_zero j env res j' hpoll
      rcases hpoll2 : Interface.poll j' env with ⟨r2, j''⟩
      rw [hpoll2] at hz2
      simp only at hz2
      subst hz2
      rcases hrec2 : SpeedDB.packAux env
          (dictSet acc2 j'.iface [("rx_bytes", 0), ("tx_bytes", 0)]) is2 with ⟨r3, is3⟩
      rw [packAux_cons_ok env acc2 j' is2 [("rx_bytes", 0), ("tx_bytes", 0)] j'' r3 is3
        hpoll2 hrec2]
      have hzacc2 : allZero (dictSet acc2 j'.iface [("rx_bytes", 0), ("tx_bytes", 0)]) :=
        allZero_dictSet acc2 j'.iface _ hz (by decide)
      have := ih (dictSet acc j.iface res)
        (dictSet acc2 j'.iface [("rx_bytes", 0), ("tx_bytes", 0)]) m is2 hrec hzacc2
      rw [hrec2] at this
      exact this

/-- C7: if a snapshot call succeeds, an immediately repeated snapshot with
no intervening change to any raw counter value (same environment)
succeeds as well and reports delta 0 for every interface and every
counterName. -/
theorem c7_second_snapshot_zero (db : SpeedDB) (env : Env) (m : Snapshot)
    (h : (SpeedDB.pack db env).1 = .ok m) :
    allZeroResult (SpeedDB.pack (SpeedDB.pack db env).2 env).1 := by
  show allZeroResult (SpeedDB.packAux env [] (SpeedDB.packAux env [] db.ifaces).2).1
  have h' : (SpeedDB.packAux env [] db.ifaces).1 = .ok m := h
  rcases hrec : SpeedDB.packAux env [] db.ifaces with ⟨r, is2⟩
  rw [hrec] at h'
  simp only at h'
  subst h'
  exact packAux_twice env db.ifaces [] [] m is2 hrec
    (fun p hp => absurd hp (List.not_mem_nil p))

/-- C7 witness: one interface, counters constant at 5; the first snapshot
reports [5, 5] and the repeated snapshot reports all-zero deltas. -/
theorem c7_second_witness :
    (SpeedDB.pack (SpeedDB.mk [⟨"eth0", []⟩]) (constEnv 5)).1 =
      .ok [("eth0", [("rx_bytes", 5), ("tx_bytes", 5)])] ∧
    allZeroResult
      (SpeedDB.pack (SpeedDB.pack (SpeedDB.mk [⟨"eth0", []⟩]) (constEnv 5)).2
        (constEnv 5)).1 :=
  ⟨rfl, c7_second_snapshot_zero (SpeedDB.mk [⟨"eth0", []⟩]) (constEnv 5)
    [("eth0", [("rx_bytes", 5), ("tx_bytes", 5)])] rfl⟩

/-! ### Claim C10 — duplicated interface names -/

theorem pollKeys_iface (env : Env) :
    ∀ (ks : List String) (s : Interface),
      (Interface.pollKeys env s ks).2.iface = s.iface := by
  intro ks
  induction ks with
  | nil => intro s; rfl
  | cons k ks ih =>
    intro s
    have hds := deltaStep_iface s env k
    rcases hd : s.deltaStep env k with ⟨r, s'⟩
    rw [hd] at hds
    simp only at hds
    cases r with
    | error e =>
      simp only [Interface.pollKeys, hd]
      exact hds
    | ok d =>
      have hrec := ih s'
      rcases hp : Interface.pollKeys env s' ks with ⟨r2, s''⟩
      rw [hp] at hrec
      simp only at hrec
      cases r2 with
      | error e =>
        simp only [Interface.pollKeys, hd, hp]
        exact hrec.trans hds
      | ok rest =>
        simp only [Interface.pollKeys, hd, hp]
        exact hrec.trans hds

theorem init_iface (env : Env) (n : String) : (Interface.init n env).2.iface = n := by
  have h : (Interface.poll ⟨n, []⟩ env).2.iface = n := pollKeys_iface env KEYS ⟨n, []⟩
  rcases hp : Interface.poll ⟨n, []⟩ env with ⟨r, s'⟩
  rw [hp] at h
  simp only at h
  cases r with
  | error e =>
    simp only [Interface.init, hp]
    exact h
  | ok u =>
    simp only [Interface.init, hp]
    exact h

theorem initList_names (env : Env) :
    ∀ (names : List String) (is : List Interface),
      SpeedDB.initList env names = .ok is → is.map Interface.iface = names := by
  intro names
  induction names with
  | nil =>
    intro is h
    simp only [SpeedDB.initList] at h
    injection h with h
    subst h
    rfl
  | cons n ns ih =>
    intro is h
    rcases hi : Interface.init n env with ⟨r, s⟩
    cases r with
    | error e =>
      simp only [SpeedDB.initList, hi] at h
      exact Except.noConfusion h
    | ok u =>
      rcases hrec : SpeedDB.initList env ns with e2 | rest
      · simp only [SpeedDB.initList, hi, hrec] at h
        exact Except.noConfusion h
      · simp only [SpeedDB.initList, hi, hrec] at h
        injection h with h
        subst h
        have hn : s.iface = n := by
          have h2 := init_iface env n
          rw [hi] at h2
          simpa using h2
        simp [List.map_cons, hn, ih rest hrec]

theorem packAux_states (env : Env) :
    ∀ (is : List Interface) (acc m : Snapshot) (is' : List Interface),
      SpeedDB.packAux env acc is = (.ok m, is') →
      is' = is.map (fun i => (Interface.poll i env).2) := by
  intro is
  induction is with
  | nil =>
    intro acc m is' h
    simp only [SpeedDB.packAux, Prod.mk.injEq] at h
    obtain ⟨-, h2⟩ := h
    subst h2
    rfl
  | cons j is ih =>
    intro acc m is' h
    rcases hpoll : Interface.poll j env with ⟨r, j'⟩
    cases r with
    | error e =>
      rw [packAux_cons_err env acc j is e j' hpoll] at h
      simp at h
    | ok res =>
      rcases hrec : SpeedDB.packAux env (dictSet acc j.iface res) is with ⟨r1, is2⟩
      rw [packAux_cons_ok env acc j is res j' r1 is2 hpoll hrec, Prod.mk.injEq] at h
      obtain ⟨h1, h2⟩ := h
      subst h1
      subst h2
      simp only [List.map_cons, hpoll]
      rw [ih (dictSet acc j.iface res) m is2 hrec]

theorem packAux_keys_mem (env : Env) :
    ∀ (is : List Interface) (acc m : Snapshot) (is' : List Interface) (nm : String),
      SpeedDB.packAux env acc is = (.ok m, is') →
      (nm ∈ m.map Prod.fst ↔ nm ∈ acc.map Prod.fst ∨ nm ∈ is.map Interface.iface) := by
  intro is
  induction is with
  | nil =>
    intro acc m is' nm h
    simp only [SpeedDB.packAux, Prod.mk.injEq] at h
    obtain ⟨h1, -⟩ := h
    injection h1 with h1
    subst h1
    simp
  | cons j is ih =>
    intro acc m is' nm h
    rcases hpoll : Interface.poll j env with ⟨r, j'⟩
    cases r with
    | error e =>
      rw [packAux_cons_err env acc j is e j' hpoll] at h
      simp at h
    | ok res =>
      rcases hrec : SpeedDB.packAux env (dictSet acc j.iface res) is with ⟨r1, is2⟩
      rw [packAux_cons_ok env acc j is res j' r1 is2 hpoll hrec, Prod.mk.injEq] at h
      obtain ⟨h1, -⟩ := h
      subst h1
      rw [ih (dictSet acc j.iface res) m is2 nm hrec, mem_keys_dictSet]
      simp only [List.map_cons, List.mem_cons]
      tauto

theorem packAux_nodup (env : Env) :
    ∀ (is : List Interface) (acc m : Snapshot) (is' : List Interface),
      SpeedDB.packAux env acc is = (.ok m, is') →
      (acc.map Prod.fst).Nodup → (m.map Prod.fst).Nodup := by
  intro is
  induction is with
  | nil =>
    intro acc m is' h hacc
    simp only [SpeedDB.packAux, Prod.mk.injEq] at h
    obtain ⟨h1, -⟩ := h
    injection h1 with h1
    subst h1
    exact hacc
  | cons j is ih =>
    intro acc m is' h hacc
    rcases hpoll : Interface.poll j env with ⟨r, j'⟩
    cases r with
    | error e =>
      rw [packAux_cons_err env acc j is e j' hpoll] at h
      simp at h
    | ok res =>
      rcases hrec : SpeedDB.packAux env (dictSet acc j.iface res) is with ⟨r1, is2⟩
      rw [packAux_cons_ok env acc j is res j' r1 is2 hpoll hrec, Prod.mk.injEq] at h
      obtain ⟨h1, -⟩ := h
      subst h1
      exact ih (dictSet acc j.iface res) m is2 hrec (nodup_keys_dictSet acc j.iface res hacc)

theorem packGetSpec_last_none (env : Env) (nm : String) (is : List Interface)
    (acc : Snapshot) (hl : lastWith (fun i => i.iface == nm) is = none) :
    packGetSpec env is acc nm = dictGet acc nm := by
  unfold packGetSpec
  rw [hl]

theorem packGetSpec_last_some (env : Env) (nm : String) (is : List Interface)
    (b : Interface) (acc : Snapshot)
    (hl : lastWith (fun i => i.iface == nm) is = some b) :
    packGetSpec env is acc nm = ((Interface.poll b env).1).toOption := by
  unfold packGetSpec
  rw [hl]

theorem lastWith_cons {α : Type} (p : α → Bool) (a : α) (as : List α) :
    lastWith p (a :: as) =
      match lastWith p as with
      | some b => some b
      | none => if p a then some a else none := by
  rfl

theorem packGetSpec_cons_none (env : Env) (nm : String) (j : Interface)
    (is : List Interface) (acc : Snapshot)
    (hl : lastWith (fun i => i.iface == nm) is = none) :
    packGetSpec env (j :: is) acc nm =
      if j.iface = nm then ((Interface.poll j env).1).toOption else dictGet acc nm := by
  unfold packGetSpec
  rw [lastWith_cons, hl]
  by_cases hj : j.iface = nm
  · simp [hj]
  · simp [hj, beq_eq_false_iff_ne.mpr hj]

theorem packGetSpec_cons_some (env : Env) (nm : String) (j b : Interface)
    (is : List Interface) (acc : Snapshot)
    (hl : lastWith (fun i => i.iface == nm) is = some b) :
    packGetSpec env (j :: is) acc nm = ((Interface.poll b env).1).toOption := by
  unfold packGetSpec
  rw [lastWith_cons, hl]

theorem packAux_get (env : Env) (nm : String) :
    ∀ (is : List Interface) (acc m : Snapshot) (is' : List Interface),
      SpeedDB.packAux env acc is = (.ok m, is') →
      dictGet m nm = packGetSpec env is acc nm := by
  intro is
  induction is with
  | nil =>
    intro acc m is' h
    simp only [SpeedDB.packAux, Prod.mk.injEq] at h
    obtain ⟨h1, -⟩ := h
    injection h1 with h1
    subst h1
    rw [packGetSpec_last_none env nm [] acc rfl]
  | cons j is ih =>
    intro acc m is' h
    rcases hpoll : Interface.poll j env with ⟨r, j'⟩
    cases r with
    | error e =>
      rw [packAux_cons_err env acc j is e j' hpoll] at h
      simp at h
    | ok res =>
      rcases hrec : SpeedDB.packAux env (dictSet acc j.iface res) is with ⟨r1, is2⟩
      rw [packAux_cons_ok env acc j is res j' r1 is2 hpoll hrec, Prod.mk.injEq] at h
      obtain ⟨h1, -⟩ := h
      subst h1
      rw [ih (dictSet acc j.iface res) m is2 hrec]
      rcases hl : lastWith (fun i => i.iface == nm) is with _ | b
      · rw [packGetSpec_last_none env nm is _ hl, packGetSpec_cons_none env nm j is acc hl]
        by_cases hj : j.iface = nm
        · rw [if_pos hj, ← hj, dictGet_dictSet_self, hpoll]
          rfl
        · rw [if_neg hj, dictGet_dictSet_ne acc res (Ne.symm hj)]
      · rw [packGetSpec_last_some env nm is b _ hl, packGetSpec_cons_some env nm j b is acc hl]

theorem packGetSpec_empty (env : Env) (is : List Interface) (nm : String) :
    packGetSpec env is [] nm =
      (lastWith (fun i => i.iface == nm) is).bind
        (fun i => ((Interface.poll i env).1).toOption) := by
  rcases hl : lastWith (fun i => i.iface == nm) is with _ | b
  · rw [packGetSpec_last_none env nm is [] hl, hl]
    rfl
  · rw [packGetSpec_last_some env nm is b [] hl, hl]
    rfl

/-- C10: when the configured interface list repeats a name, one tracker is
constructed per list entry (the tracker names, in order, are exactly the
configured list), a snapshot polls every tracker (each stored tracker
state is the post-poll state), and the snapshot dict has exactly one
entry per distinct name (its keys are duplicate-free and are exactly the
configured names), holding the poll result of the last listed tracker of
that name. -/
theorem c10_duplicate_names (names : List String) (env : Env) (db : SpeedDB)
    (m : Snapshot) (db' : SpeedDB) (nm : String)
    (hinit : SpeedDB.init names env = .ok db)
    (hpack : SpeedDB.pack db env = (.ok m, db')) :
    db.ifaces.map Interface.iface = names ∧
    db'.ifaces = db.ifaces.map (fun i => (Interface.poll i env).2) ∧
    (m.map Prod.fst).Nodup ∧
    (nm ∈ m.map Prod.fst ↔ nm ∈ names) ∧
    dictGet m nm =
      (lastWith (fun i => i.iface == nm) db.ifaces).bind
        (fun i => ((Interface.poll i env).1).toOption) := by
  rcases hil : SpeedDB.initList env names with e | is0
  · rw [SpeedDB.init, hil] at hinit
    exact Except.noConfusion hinit
  rw [SpeedDB.init, hil] at hinit
  simp only [Except.map] at hinit
  injection hinit with hinit
  subst hinit
  have hnames : is0.map Interface.iface = names := initList_names env names is0 hil
  have hp1 : (SpeedDB.packAux env [] is0).1 = .ok m := congrArg Prod.fst hpack
  have hp2 : (SpeedDB.packAux env [] is0).2 = db'.ifaces :=
    congrArg SpeedDB.ifaces (congrArg Prod.snd hpack)
  rcases hpa : SpeedDB.packAux env [] is0 with ⟨r, is2⟩
  rw [hpa] at hp1 hp2
  simp only at hp1 hp2
  subst hp1
  have hpa' : SpeedDB.packAux env [] is0 = (.ok m, is2) := hpa
  refine ⟨hnames, ?_, ?_, ?_, ?_⟩
  · rw [← hp2]
    exact packAux_states env is0 [] m is2 hpa'
  · exact packAux_nodup env is0 [] m is2 hpa' (by simp)
  · rw [packAux_keys_mem env is0 [] m is2 nm hpa', hnames]
    simp
  · rw [packAux_get env nm is0 [] m is2 hpa', packGetSpec_empty]

/-- C10 witness: the list ["eth0", "lo", "eth0"] duplicates "eth0"; the
snapshot has exactly the two distinct keys with the last eth0 tracker's
(identical, all-zero) poll result. -/
theorem c10_duplicate_witness :
    SpeedDB.init ["eth0", "lo", "eth0"] (constEnv 7) =
      .ok (SpeedDB.mk
        [⟨"eth0", [("rx_bytes", 7), ("tx_bytes", 7)]⟩,
         ⟨"lo", [("rx_bytes", 7), ("tx_bytes", 7)]⟩,
         ⟨"eth0", [("rx_bytes", 7), ("tx_bytes", 7)]⟩]) ∧
    SpeedDB.pack (SpeedDB.mk
        [⟨"eth0", [("rx_bytes", 7), ("tx_bytes", 7)]⟩,
         ⟨"lo", [("rx_bytes", 7), ("tx_bytes", 7)]⟩,
         ⟨"eth0", [("rx_bytes", 7), ("tx_bytes", 7)]⟩]) (constEnv 7) =
      (.ok [("eth0", [("rx_bytes", 0), ("tx_bytes", 0)]),
            ("lo", [("rx_bytes", 0), ("tx_bytes", 0)])],
       SpeedDB.mk
        [⟨"eth0", [("rx_bytes", 7), ("tx_bytes", 7)]⟩,
         ⟨"lo", [("rx_bytes", 7), ("tx_bytes", 7)]⟩,
         ⟨"eth0", [("rx_bytes", 7), ("tx_bytes", 7)]⟩]) ∧
    ((SpeedDB.mk
        [⟨"eth0", [("rx_bytes", 7), ("tx_bytes", 7)]⟩,
         ⟨"lo", [("rx_bytes", 7), ("tx_bytes", 7)]⟩,
         ⟨"eth0", [("rx_bytes", 7), ("tx_bytes", 7)]⟩]).ifaces.map Interface.iface =
        ["eth0", "lo", "eth0"] ∧
     (SpeedDB.mk
        [⟨"eth0", [("rx_bytes", 7), ("tx_bytes", 7)]⟩,
         ⟨"lo", [("rx_bytes", 7), ("tx_bytes", 7)]⟩,
         ⟨"eth0", [("rx_bytes", 7), ("tx_bytes", 7)]⟩]).ifaces =
       (SpeedDB.mk
        [⟨"eth0", [("rx_bytes", 7), ("tx_bytes", 7)]⟩,
         ⟨"lo", [("rx_bytes", 7), ("tx_bytes", 7)]⟩,
         ⟨"eth0", [("rx_bytes", 7), ("tx_bytes", 7)]⟩]).ifaces.map
          (fun i => (Interface.poll i (constEnv 7)).2) ∧
     (([("eth0", [("rx_bytes", 0), ("tx_bytes", 0)]),
        ("lo", [("rx_bytes", 0), ("tx_bytes", 0)])] : Snapshot).map Prod.fst).Nodup ∧
     ("eth0" ∈ ([("eth0", [("rx_bytes", 0), ("tx_bytes", 0)]),
        ("lo", [("rx_bytes", 0), ("tx_bytes", 0)])] : Snapshot).map Prod.fst ↔
        "eth0" ∈ ["eth0", "lo", "eth0"]) ∧
     dictGet ([("eth0", [("rx_bytes", 0), ("tx_bytes", 0)]),
        ("lo", [("rx_bytes", 0), ("tx_bytes", 0)])] : Snapshot) "eth0" =
       (lastWith (fun i => i.iface == "eth0")
          (SpeedDB.mk
            [⟨"eth0", [("rx_bytes", 7), ("tx_bytes", 7)]⟩,
             ⟨"lo", [("rx_bytes", 7), ("tx_bytes", 7)]⟩,
             ⟨"eth0", [("rx_bytes", 7), ("tx_bytes", 7)]⟩]).ifaces).bind
         (fun i => ((Interface.poll i (constEnv 7)).1).toOption)) :=
  ⟨rfl, rfl,
    c10_duplicate_names ["eth0", "lo", "eth0"] (constEnv 7)
      (SpeedDB.mk
        [⟨"eth0", [("rx_bytes", 7), ("tx_bytes", 7)]⟩,
         ⟨"lo", [("rx_bytes", 7), ("tx_bytes", 7)]⟩,
         ⟨"eth0", [("rx_bytes", 7), ("tx_bytes", 7)]⟩])
      [("eth0", [("rx_bytes", 0), ("tx_bytes", 0)]),
       ("lo", [("rx_bytes", 0), ("tx_bytes", 0)])]
      (SpeedDB.mk
        [⟨"eth0", [("rx_bytes", 7), ("tx_bytes", 7)]⟩,
         ⟨"lo", [("rx_bytes", 7), ("tx_bytes", 7)]⟩,
         ⟨"eth0", [("rx_bytes", 7), ("tx_bytes", 7)]⟩]) "eth0" rfl rfl⟩
